import Mathlib

/-!
Verification development for the research-scraper ingestion core.

This file embeds, as executable Lean definitions, the parts of the
repository that the checked claims are about:

* `filters.py`     — keyword / exclusion classification (`classify_rfp`),
* `keywords.py`    — inductive key-term extraction (`extract_key_terms`),
* `storage.py`     — content hashing (`rfp_hash`), seen-set pruning
                     (`prune_seen`) and the append-only store (`append_rfps`),
* `main.py`        — the per-run dedup / classify / store loop,
* `analyze_keywords.py` — snapshot loading and new/rising-term detection
                     (`detect_new_terms`).

Modelling conventions:

* Python `str` is modelled by `String` (a list of unicode code points);
  the Unicode character classes of `re` (`\w`, `\s`, `\d`) and `str.lower`
  are modelled by their ASCII behaviour (`Char.isAlphanum`, underscore,
  `Char.isWhitespace`, `Char.isDigit`, `Char.toLower`), which coincides
  with CPython on the ASCII data this repository processes.
* Python floats carrying TF-IDF scores are modelled by `ℚ`; the in-document
  term scores of `keywords.py` (`count * 2.0`, `count * 1.0`) are
  integer-valued floats whose comparisons agree with `Nat` comparisons,
  so they are modelled by `Nat` with weights `2 * count` and `count`.
* Python dicts are modelled by insertion-ordered association lists
  (CPython ≥ 3.7 iterates dicts in insertion order, which the code
  relies on for deterministic output).
* `re.findall` on an alternation of escaped literals is modelled by a
  left-to-right scan that, at each position, tries the alternatives in
  vocabulary order and consumes the first that matches (this is exactly
  CPython's leftmost, first-alternative, non-overlapping semantics for a
  literal alternation).
-/

namespace Scraper

/-! ## Generic string / list helpers (Python semantics) -/

/-- Code-point lexicographic strict comparison, as Python `str.__lt__`. -/
def lexLt : List Char → List Char → Bool
  | [], [] => false
  | [], _ :: _ => true
  | _ :: _, [] => false
  | a :: as, b :: bs => if a < b then true else if b < a then false else lexLt as bs

/-- Python `s < t` on strings. -/
def strLtB (s t : String) : Bool := lexLt s.data t.data

/-- Python `s >= t` on strings (`t` compared below `s`): `cutoff <= v`. -/
def strLeB (s t : String) : Bool := !(strLtB t s)

/-- Python `str.lower` (ASCII model). -/
def pyLower (c : Char) : Char := c.toLower

/-- The `\w` character class of `re` (ASCII model): alphanumeric or underscore. -/
def isWordChar (c : Char) : Bool := c.isAlphanum || c == '_'

/-- Python `str.strip()` on the character list: drop leading and trailing
whitespace. -/
def pyStrip (l : List Char) : List Char :=
  ((l.dropWhile Char.isWhitespace).reverse.dropWhile Char.isWhitespace).reverse

/-- Python `str.split()` (no argument): split on whitespace runs, never
producing empty words.  `cur` is the reversed chunk of the current word. -/
def wordsAux (cur : List Char) : List Char → List (List Char)
  | [] => if cur.isEmpty then [] else [cur.reverse]
  | c :: cs =>
    if c.isWhitespace then
      if cur.isEmpty then wordsAux [] cs else cur.reverse :: wordsAux [] cs
    else wordsAux (c :: cur) cs

/-- Python `needle in hay` on strings (substring containment). -/
def isSubB (needle : List Char) : List Char → Bool
  | [] => needle.isEmpty
  | c :: rest => needle.isPrefixOf (c :: rest) || isSubB needle rest

/-- Stable insertion used to model Python `list.sort`: `x` is inserted before
the first element it is strictly below, hence after all elements equivalent
to it — the stable ascending order of CPython's sort. -/
def insertAfterEq (lt : α → α → Bool) (x : α) : List α → List α
  | [] => [x]
  | y :: ys => if lt x y then x :: y :: ys else y :: insertAfterEq lt x ys

/-- Python `list.sort(key=...)`: stable sort, ascending in the strict order
`lt`. -/
def stableSortBy (lt : α → α → Bool) (l : List α) : List α :=
  l.foldl (fun acc x => insertAfterEq lt x acc) []

/-- One step of building a Python counting dict: increment an existing key in
place, else append the new key with count 1 (insertion order preserved). -/
def countInsert (m : List (String × Nat)) (t : String) : List (String × Nat) :=
  if m.any (fun p => p.1 == t) then
    m.map (fun p => if p.1 == t then (p.1, p.2 + 1) else p)
  else m ++ [(t, 1)]

/-- `freq[tok] = freq.get(tok, 0) + 1` over a whole list. -/
def countList (l : List String) : List (String × Nat) := l.foldl countInsert []

/-- First value bound to a key in an association list (Python `d[k]` /
`k in d` on a dict). -/
def lookupA (m : List (String × α)) (t : String) : Option α :=
  (m.find? (fun p => p.1 == t)).map (fun p => p.2)

/-! ## Data model: one normalized RFP record (`rfp: dict` in the source,
with `rfp.get(field, "")` defaulting; only the fields the embedded code
reads are carried). -/

structure Rfp where
  id : String := ""
  source : String := ""
  state : String := ""
  title : String := ""
  agency : String := ""
  status : String := ""
  posted_date : String := ""
  close_date : String := ""
  url : String := ""
  description : String := ""
  amount : String := ""
deriving Repr, DecidableEq

/-! ## `filters.py` — keyword matching and exclusion -/

def KEYWORDS : List String := [
  "economic analysis", "economic impact", "economic development", "economic study",
  "economic resilience", "economic recovery", "fiscal analysis", "fiscal impact",
  "financial analysis", "tax analysis", "tax study", "budget analysis",
  "impact study", "impact analysis", "cost-benefit", "cost benefit",
  "feasibility study", "feasibility analysis", "econometric", "community resilience",
  "disaster recovery", "disaster impact", "hurricane recovery", "extreme weather",
  "entrepreneurship", "small business resilience", "small firm", "regional economic",
  "local economic", "opioid", "substance abuse", "public health assessment",
  "health impact", "health policy", "epidemiolog", "banking access",
  "financial desert", "bank branch", "community development financial", "CDFI",
  "childhood adversity", "adverse childhood", "data analysis", "data analytics",
  "statistical analysis", "statistical services", "research services", "market research",
  "survey research", "evaluation services", "quantitative analysis", "qualitative analysis",
  "demographic analysis", "demographic study", "forecast", "benchmarking",
  "consulting services", "advisory services", "professional services", "management consulting",
  "technical assistance", "transportation planning", "transportation study", "transportation analysis",
  "transit planning", "transit study", "transit analysis", "multimodal transportation",
  "sustainable transportation", "electric vehicle", "autonomous vehicle", "connected vehicle",
  "shared mobility", "ride-share", "rideshare", "travel behavior",
  "travel demand", "bicycle", "bike plan", "pedestrian plan",
  "traffic study", "traffic analysis", "transportation policy", "transportation infrastructure",
  "public management", "public administration", "program evaluation", "policy analysis",
  "policy evaluation", "strategic planning", "workforce analysis", "workforce development",
  "workforce study", "workforce planning", "human resources", "personnel management",
  "employee engagement", "organizational assessment", "organizational development", "performance management",
  "performance measurement", "public sector innovation", "government innovation", "diversity equity inclusion",
  "DEI assessment", "cultural competence", "employee survey", "training and development",
  "professional development", "compensation study", "classification study", "climate adaptation",
  "climate resilience", "climate action plan", "resilience planning", "resilience study",
  "resilience assessment", "hazard mitigation", "disaster planning", "green infrastructure",
  "blue infrastructure", "sustainability plan", "sustainability assessment", "environmental planning",
  "environmental assessment", "complete streets", "active transportation", "trail planning",
  "greenway", "pedestrian infrastructure", "urban planning", "stormwater management",
  "flood mitigation", "land use planning", "comprehensive plan", "artificial intelligence",
  "machine learning", "AI strategy", "AI implementation", "gamification",
  "behavioral economics", "behavioral insights", "nudge", "leadership development",
  "leadership training", "scenario planning", "decision support", "change management",
  "organizational change", "process improvement", "digital transformation", "technology assessment",
  "innovation strategy", "public finance", "public budgeting", "government finance",
  "revenue administration", "tax policy", "fiscal policy", "administrative law",
  "regulatory compliance", "rulemaking", "education policy", "education assessment",
  "school finance", "higher education", "education reform", "academic program review",
  "state government", "local government", "intergovernmental relations", "organizational theory",
  "organizational behavior", "organizational design", "international administration", "comparative administration",
  "ethics in government", "government ethics", "ethics training", "transparency",
  "performance accountability", "performance audit", "government accountability", "emergency management",
  "emergency preparedness", "crisis management", "continuity of operations", "digital government",
  "e-government", "government technology", "smart city", "GIS services",
  "GIS analysis", "geospatial analysis", "geospatial services", "mapping services",
  "spatial analysis", "data digitization", "records digitization", "document digitization",
  "data collection services", "data cleanup", "data migration", "process documentation",
  "process analysis", "process mapping", "business process", "workflow analysis",
  "policy evaluation", "policy review", "regulatory review", "government staffing",
  "staff augmentation", "third-party assessment", "independent assessment", "program review",
  "operational assessment", "operational review", "agency modernization", "government modernization",
  "nonprofit management", "nonprofit organization", "nonprofit capacity", "nonprofit performance",
  "nonprofit leadership", "nonprofit sector", "nonprofit governance", "nonprofit board",
  "board diversity", "board development", "executive transition", "leadership transition",
  "fund development", "fundraising", "grant writing", "grant management",
  "volunteer management", "volunteer engagement", "organizational capacity", "capacity building",
  "nonprofit workforce", "nonprofit professional", "nonprofit resilience", "sector resilience",
  "charitable organization", "philanthropic", "personnel administration", "civil service",
  "civil service reform", "merit system", "merit pay", "employee classification",
  "position classification", "pay equity", "public sector employment", "public workforce",
  "HR reform", "HR modernization", "labor relations", "collective bargaining",
  "employee retention", "employee recruitment", "retirement policy", "retirement security",
  "retirement planning", "pension", "public pension", "pension finance",
  "income security", "income support", "social security", "retirement benefit",
  "aging policy", "aging services", "older adults", "elderly",
  "Medicare", "health insurance", "health economics", "cost-related nonadherence",
  "prescription drug", "self-employment", "labor force participation", "retirement decision",
  "claim age", "survivor benefit", "local government management", "community engagement",
  "community asset", "collective action", "contingency management", "public integrity",
  "race and gender", "gender equity", "mentoring", "career development",
  "entrepreneurial ecosystem", "business incubation", "business incubator", "labor market",
  "urban labor", "community wealth", "inclusive economy", "economic equity",
  "housing policy", "housing program", "minority business", "economic transformation",
  "economic sustainability", "postsecondary education", "college access", "student success",
  "student equity", "regional college", "rural education", "education accountability",
  "education performance", "institutional leadership", "education governance", "organizational dynamics",
  "state governance", "school choice", "school closure", "English learner",
  "desegregation", "school reassignment", "data-driven reform", "education evaluation",
  "education research", "student achievement", "student learning", "housing voucher",
  "K-12 education", "school district", "opioid use disorder", "opioid policy",
  "opioid treatment", "substance use disorder", "cannabis policy", "cannabis legalization",
  "marijuana policy", "drug policy", "Medicaid managed care", "health care utilization",
  "prescribing behavior", "health services research", "adolescent health", "young adult health",
  "behavioral health", "efficiency measurement", "productivity measurement", "organizational efficiency",
  "organizational economics", "nonprofit efficiency", "strategic management", "strategic partnership",
  "management science", "policy implementation", "public revenue", "government efficiency",
  "social impact", "disaster policy", "disaster management", "disaster aid",
  "disaster finance", "flood insurance", "property tax", "tax administration",
  "managed retreat", "vulnerable population", "climate technology", "technology policy",
  "local government finance", "fiscal federalism", "fiscal stress", "criminal justice policy",
  "fines and fees", "asset forfeiture", "revenue-motivated policing", "traffic citations",
  "policing technology", "local government consolidation", "municipal courts", "law enforcement",
  "housing market", "foreign buyer tax", "state and local finance", "municipal debt",
  "municipal bankruptcy", "local government financial health", "fiscal distress", "interest rate swaps",
  "debt derivatives", "policing for profit", "state takeover", "local government takeover",
  "government procurement", "public procurement", "voter responsiveness", "fiscal signals",
  "municipal government", "city government", "financial condition", "financial well-being"
]

def EXCLUDE_FRAGMENTS : List String := [
  "conference", "forum", "symposium", "summit",
  "seminar", "workshop", "expo", "gala",
  "banquet", "luncheon", "construction", "paving",
  "roofing", "hvac", "plumbing", "electrical services",
  "fencing", "mowing", "janitorial", "custodial",
  "sewing", "textile", "fabric", "lining",
  "tape", "ambulance", "fire truck", "tractor",
  "mower", "food service", "catering", "cheese",
  "meat", "produce", "engineering services", "civil engineering",
  "structural engineering", "mechanical engineering", "geotechnical engineering", "engineering design",
  "engineering firm", "architecture and engineering", "A/E services", "surveying services",
  "land surveying", "topographic survey", "inspection services", "materials testing"
]

def ENGLISH_STOP : List String := [
  "a", "an", "the", "and", "or", "but", "in", "on",
  "at", "to", "for", "of", "is", "it", "its", "by",
  "from", "with", "as", "be", "was", "were", "been", "being",
  "have", "has", "had", "do", "does", "did", "will", "would",
  "shall", "should", "may", "might", "can", "could", "this", "that",
  "these", "those", "am", "are", "not", "no", "nor", "so",
  "if", "then", "than", "too", "very", "each", "every", "all",
  "any", "both", "few", "more", "most", "other", "some", "such",
  "only", "own", "same", "just", "about", "above", "after", "again",
  "against", "before", "below", "between", "during", "into", "out", "over",
  "through", "under", "until", "up", "also", "how", "what", "which",
  "who", "whom", "why", "where", "when", "there", "here", "their",
  "them", "they", "he", "she", "her", "his", "him", "we",
  "our", "us", "you", "your", "me", "my"
]

def PROCUREMENT_STOP : List String := [
  "rfp", "rfq", "rfi", "ifb", "solicitation", "bid", "bids", "proposal",
  "proposals", "contract", "contracts", "amendment", "addendum", "addenda", "vendor", "vendors",
  "supplier", "suppliers", "bidder", "bidders", "services", "service", "provide", "providing",
  "provided", "provision", "procurement", "purchase", "purchasing", "request", "requests", "notice",
  "notices", "invitation", "invitations", "due", "date", "state", "county", "city",
  "town", "village", "district", "department", "dept", "division", "office", "agency",
  "bureau", "board", "commission", "authority", "university", "college", "school", "number",
  "num", "fiscal", "year", "month", "annual", "quarterly", "per", "new",
  "open", "closed", "awarded", "public", "issued", "release", "released", "issuing",
  "response", "responses", "submission", "submit", "submitted", "deadline", "period", "effective",
  "expiration", "renewal", "section", "item", "items", "page", "pages", "attachment",
  "exhibit", "appendix", "scope", "work", "required", "requirements", "requirement", "include",
  "includes", "including", "included", "shall", "must", "may", "general", "description",
  "specifications", "specification"
]


/-- Case-insensitive match of the literal `kw` at the head of `txt`
(`re.IGNORECASE` on an escaped literal alternative). -/
def ciPrefix : List Char → List Char → Bool
  | [], _ => true
  | _ :: _, [] => false
  | a :: as, b :: bs => pyLower a == pyLower b && ciPrefix as bs

/-- The first alternative (in vocabulary order) matching at the head of
`txt`, returned with its length — regex alternation takes the first
alternative that matches at the current position. -/
def firstAlt (kws : List String) (txt : List Char) : Option Nat :=
  match kws with
  | [] => none
  | k :: rest => if ciPrefix k.data txt then some k.data.length else firstAlt rest txt

/-- `KEYWORD_PATTERN.findall(text)`: scan left to right; at each position try
the alternatives in order; on a match emit the matched slice of the original
text and resume after it.  `fuel` only bounds the recursion and is always
called with `fuel = txt.length` (every keyword is nonempty, so each step
consumes at least one character). -/
def scanAlts (kws : List String) : Nat → List Char → List String
  | 0, _ => []
  | _, [] => []
  | fuel + 1, txt@(_ :: rest) =>
    match firstAlt kws txt with
    | some n => String.mk (txt.take n) :: scanAlts kws fuel (txt.drop n)
    | none => scanAlts kws fuel rest

/-- `re.findall` of the keyword alternation over a text. -/
def findallKw (text : String) : List String :=
  scanAlts KEYWORDS text.data.length text.data

/-- `EXCLUDE_PATTERN.search(text)` is truthy: some exclusion fragment matches
case-insensitively at some position. -/
def excludeSearch (text : String) : Bool :=
  go text.data
where
  go : List Char → Bool
    | [] => false
    | txt@(_ :: rest) =>
      EXCLUDE_FRAGMENTS.any (fun k => ciPrefix k.data txt) || go rest

/-- The text `classify_rfp` scans: `" ".flatten([title, description, agency])`. -/
def classifyText (rfp : Rfp) : String :=
  rfp.title ++ " " ++ rfp.description ++ " " ++ rfp.agency

/-- Python `list(dict.fromkeys(xs))`: deduplicate keeping first occurrences
(`seen` accumulates the keys already emitted). -/
def dedupKeepFirstAux (seen : List String) : List String → List String
  | [] => []
  | x :: xs =>
    if seen.contains x then dedupKeepFirstAux seen xs
    else x :: dedupKeepFirstAux (x :: seen) xs

/-- Python `list(dict.fromkeys(xs))`. -/
def dedupKeepFirst (l : List String) : List String := dedupKeepFirstAux [] l

/-- `classify_rfp(rfp)` from `filters.py`: excluded RFPs get `(False, [])`;
otherwise all (non-overlapping) keyword matches, lowercased, deduplicated in
first-seen order, with `matched = bool(unique)`. -/
def classify_rfp (rfp : Rfp) : Bool × List String :=
  let text := classifyText rfp
  if excludeSearch text then (false, [])
  else
    let found := findallKw text
    let unique := dedupKeepFirst (found.map (fun kw => String.mk (kw.data.map pyLower)))
    (!unique.isEmpty, unique)


/-! ## `keywords.py` — inductive key-term extraction -/

/-- `STOP_WORDS = _ENGLISH_STOP | _PROCUREMENT_STOP` (membership in the
union of the two frozensets). -/
def STOP_WORDS : List String := ENGLISH_STOP ++ PROCUREMENT_STOP

def MIN_WORD_LEN : Nat := 3

def MAX_KEY_TERMS : Nat := 10

/-- `_DIGITS_ONLY.match(tok)` is truthy: `^\d+$` (nonempty, all digits). -/
def digitsOnly (t : String) : Bool := !t.isEmpty && t.data.all Char.isDigit

/-- `_tokenize(text)` from `keywords.py`: lowercase, replace every character
outside `\w` and `\s` by a space, collapse/strip whitespace and split, then
drop tokens shorter than `MIN_WORD_LEN`, purely numeric tokens, and stop
words.  (The collapse + strip + `str.split()` composite is exactly a
whitespace split that never yields empty words, which `wordsAux [] ·`
implements directly.) -/
def tokenize (text : String) : List String :=
  let lowered := text.data.map pyLower
  let subbed := lowered.map (fun c => if isWordChar c || c.isWhitespace then c else ' ')
  let words := (wordsAux [] subbed).map String.mk
  words.filter (fun tok =>
    decide (MIN_WORD_LEN <= tok.length) && !digitsOnly tok && !STOP_WORDS.contains tok)

/-- `_bigrams(tokens)`: adjacent-pair strings `f"{tokens[i]} {tokens[i+1]}"`. -/
def bigramsOf : List String → List String
  | a :: b :: rest => (a ++ " " ++ b) :: bigramsOf (b :: rest)
  | _ => []

/-- The dedup-and-cap loop at the end of `extract_key_terms`: walk the sorted
terms, skip already-seen ones, stop as soon as the result reaches
`MAX_KEY_TERMS`.  `acc` is the reversed result built so far. -/
def pickTerms (cap : Nat) (seen acc : List String) : List (String × Nat) → List String
  | [] => acc.reverse
  | (t, _) :: rest =>
    if seen.contains t then pickTerms cap seen acc rest
    else if cap <= acc.length + 1 then (t :: acc).reverse
    else pickTerms cap (t :: seen) (t :: acc) rest

/-- Sort order of `scored.sort(key=lambda x: (-x[1], x[0]))`: strictly above
means higher score, or equal score and lexicographically smaller term. -/
def scoredLt (a b : String × Nat) : Bool :=
  b.2 < a.2 || (a.2 == b.2 && strLtB a.1 b.1)

/-- The text blob `extract_key_terms` tokenizes:
`f"{title} {desc} {agency}".strip()`, with the description dropped when it
is a verbatim case-insensitive copy of the title. -/
def textOf (rfp : Rfp) : List Char :=
  let desc :=
    if (pyStrip rfp.description.data).map pyLower == (pyStrip rfp.title.data).map pyLower
    then "" else rfp.description
  pyStrip (rfp.title.data ++ ' ' :: desc.data ++ ' ' :: rfp.agency.data)

/-- The merged scoring list of `extract_key_terms`: every bigram at
`count * 2.0`, then every unigram at `count * 1.0` unless it is a substring
of some bigram of the document.  Scores are integer-valued floats in the
source, modelled as `Nat` (`2 * count`, `count`); all comparisons agree. -/
def scoredOf (tokens : List String) : List (String × Nat) :=
  let freq := countList tokens
  let biFreq := countList (bigramsOf tokens)
  biFreq.map (fun p => (p.1, 2 * p.2)) ++
    (freq.filter (fun p => !(biFreq.any (fun bp => isSubB p.1.data bp.1.data)))).map
      (fun p => (p.1, p.2))

/-- `extract_key_terms(rfp)` from `keywords.py`: tokenize the text blob,
score unigrams and bigrams, sort by `(-score, term)`, deduplicate and cap
at `MAX_KEY_TERMS`.  Empty text or an all-filtered token list yield `[]`. -/
def extract_key_terms (rfp : Rfp) : List String :=
  let text := textOf rfp
  if text.isEmpty then []
  else
    let tokens := tokenize (String.mk text)
    if tokens.isEmpty then []
    else pickTerms MAX_KEY_TERMS [] [] (stableSortBy scoredLt (scoredOf tokens))


/-! ## `storage.py` — content hash (SHA-256), seen-set, append-only store

`rfp_hash` is `hashlib.sha256(raw.encode()).hexdigest()[:16]`; SHA-256
(FIPS 180-4) is implemented below over `Nat` with explicit reduction
mod `2^32`, and `str.encode()` is UTF-8. -/

def M32 : Nat := 4294967296

def add32 (x y : Nat) : Nat := (x + y) % M32

def rotr (k x : Nat) : Nat := (x / 2 ^ k + x % 2 ^ k * 2 ^ (32 - k)) % M32

def shr (k x : Nat) : Nat := x / 2 ^ k

def not32 (x : Nat) : Nat := Nat.xor x (M32 - 1)

def ch32 (x y z : Nat) : Nat := Nat.xor (Nat.land x y) (Nat.land (not32 x) z)

def maj32 (x y z : Nat) : Nat :=
  Nat.xor (Nat.land x y) (Nat.xor (Nat.land x z) (Nat.land y z))

def bsig0 (x : Nat) : Nat := Nat.xor (rotr 2 x) (Nat.xor (rotr 13 x) (rotr 22 x))

def bsig1 (x : Nat) : Nat := Nat.xor (rotr 6 x) (Nat.xor (rotr 11 x) (rotr 25 x))

def ssig0 (x : Nat) : Nat := Nat.xor (rotr 7 x) (Nat.xor (rotr 18 x) (shr 3 x))

def ssig1 (x : Nat) : Nat := Nat.xor (rotr 17 x) (Nat.xor (rotr 19 x) (shr 10 x))

/-- SHA-256 initial hash value H^(0). -/
def sha224_256InitH : List Nat :=
  [1779033703, 3144134277, 1013904242,
   2773480762, 1359893119, 2600822924,
   528734635, 1541459225]

/-- SHA-256 round constants K. -/
def shaK : List Nat :=
  [1116352408, 1899447441, 3049323471, 3921009573, 961987163,
   1508970993, 2453635748, 2870763221, 3624381080, 310598401,
   607225278, 1426881987, 1925078388, 2162078206, 2614888103,
   3248222580, 3835390401, 4022224774, 264347078, 604807628,
   770255983, 1249150122, 1555081692, 1996064986, 2554220882,
   2821834349, 2952996808, 3210313671, 3336571891, 3584528711,
   113926993, 338241895, 666307205, 773529912, 1294757372,
   1396182291, 1695183700, 1986661051, 2177026350, 2456956037,
   2730485921, 2820302411, 3259730800, 3345764771, 3516065817,
   3600352804, 4094571909, 275423344, 430227734, 506948616,
   659060556, 883997877, 958139571, 1322822218, 1537002063,
   1747873779, 1955562222, 2024104815, 2227730452, 2361852424,
   2428436474, 2756734187, 3204031479, 3329325298]

/-- Big-endian 8-byte encoding of the 64-bit message bit length. -/
def beBytes8 (v : Nat) : List Nat :=
  [v / 2 ^ 56 % 256, v / 2 ^ 48 % 256, v / 2 ^ 40 % 256, v / 2 ^ 32 % 256,
   v / 2 ^ 24 % 256, v / 2 ^ 16 % 256, v / 2 ^ 8 % 256, v % 256]

/-- SHA-256 padding: append `0x80`, zero bytes to 56 mod 64, then the
big-endian bit length. -/
def padMsg (msg : List Nat) : List Nat :=
  msg ++ 0x80 :: List.replicate ((119 - msg.length % 64) % 64) 0 ++ beBytes8 (8 * msg.length)

/-- Big-endian 32-bit words from a byte list. -/
def toWords : List Nat → List Nat
  | b0 :: b1 :: b2 :: b3 :: rest => (((b0 * 256 + b1) * 256 + b2) * 256 + b3) :: toWords rest
  | _ => []

/-- One message-schedule extension step on the reversed schedule
(`rev = [W_{t-1}, …, W_0]`). -/
def schedStep (rev : List Nat) : List Nat :=
  add32 (add32 (ssig1 (rev.getD 1 0)) (rev.getD 6 0))
        (add32 (ssig0 (rev.getD 14 0)) (rev.getD 15 0)) :: rev

/-- Extend the 16-word schedule to 64 words (48 steps), returned in order. -/
def extendSched : Nat → List Nat → List Nat
  | 0, rev => rev.reverse
  | fuel + 1, rev => extendSched fuel (schedStep rev)

/-- One SHA-256 compression round; the state is `[a,b,c,d,e,f,g,h]`. -/
def compStep (st : List Nat) (kw : Nat × Nat) : List Nat :=
  let a := st.getD 0 0
  let b := st.getD 1 0
  let c := st.getD 2 0
  let d := st.getD 3 0
  let e := st.getD 4 0
  let f := st.getD 5 0
  let g := st.getD 6 0
  let h := st.getD 7 0
  let t1 := add32 h (add32 (bsig1 e) (add32 (ch32 e f g) (add32 kw.1 kw.2)))
  let t2 := add32 (bsig0 a) (maj32 a b c)
  [add32 t1 t2, a, b, c, add32 d t1, e, f, g]

/-- Process one 64-byte block. -/
def processBlock (H : List Nat) (block : List Nat) : List Nat :=
  let ws := extendSched 48 (toWords block).reverse
  let st := (shaK.zip ws).foldl compStep H
  List.zipWith add32 H st

/-- Split into 64-byte blocks; `fuel` bounds the recursion and is always
called with `fuel = l.length` (each step consumes 64 bytes of a padded,
hence nonempty-multiple-of-64, message). -/
def chunks64 : Nat → List Nat → List (List Nat)
  | 0, _ => []
  | _, [] => []
  | fuel + 1, l => l.take 64 :: chunks64 fuel (l.drop 64)

def hexDigit (n : Nat) : Char := "0123456789abcdef".data.getD n '0'

/-- Lowercase hex of one 32-bit word (8 digits). -/
def wordHex (v : Nat) : List Char :=
  [hexDigit (v / 16 ^ 7 % 16), hexDigit (v / 16 ^ 6 % 16), hexDigit (v / 16 ^ 5 % 16),
   hexDigit (v / 16 ^ 4 % 16), hexDigit (v / 16 ^ 3 % 16), hexDigit (v / 16 ^ 2 % 16),
   hexDigit (v / 16 % 16), hexDigit (v % 16)]

/-- `hashlib.sha256(bytes).hexdigest()`. -/
def sha256hex (msg : List Nat) : String :=
  let padded := padMsg msg
  let H := (chunks64 padded.length padded).foldl processBlock sha224_256InitH
  String.mk (H.map wordHex).flatten

/-- UTF-8 encoding of one code point (`str.encode()`). -/
def utf8Char (c : Char) : List Nat :=
  let n := c.toNat
  if n < 0x80 then [n]
  else if n < 0x800 then [0xc0 + n / 64, 0x80 + n % 64]
  else if n < 0x10000 then [0xe0 + n / 4096, 0x80 + n / 64 % 64, 0x80 + n % 64]
  else [0xf0 + n / 262144, 0x80 + n / 4096 % 64, 0x80 + n / 64 % 64, 0x80 + n % 64]

/-- `str.encode()`: UTF-8 bytes of a string. -/
def utf8Bytes (s : String) : List Nat := (s.data.map utf8Char).flatten

/-- `raw = f"{rfp.get('state', '')}-{rfp.get('id', '')}-{rfp.get('title', '')}"`. -/
def rfp_raw (rfp : Rfp) : String := rfp.state ++ "-" ++ rfp.id ++ "-" ++ rfp.title

/-- `rfp_hash(rfp)`: SHA-256 of `state-id-title`, truncated to 16 hex chars. -/
def rfp_hash (rfp : Rfp) : String :=
  String.mk ((sha256hex (utf8Bytes (rfp_raw rfp))).data.take 16)

/-- One seen-set entry (`{"first_seen": …, "title": …, "state": …}`);
`first_seen` is `Option` because a loaded JSON entry may lack the key
(`v.get("first_seen", "")` in the source). -/
structure SeenEntry where
  first_seen : Option String := none
  title : String := ""
  state : String := ""
deriving Repr, DecidableEq

/-- `v.get("first_seen", "")`. -/
def firstSeenD (e : SeenEntry) : String := e.first_seen.getD ""

/-- `SEEN_TTL_DAYS = 36500 if HISTORICAL_MODE else 90` (`config.py`). -/
def SEEN_TTL_DAYS (historicalMode : Bool) : Nat := if historicalMode then 36500 else 90

/-- `prune_seen(seen)`: keep entries whose `first_seen` string is `>=` the
cutoff string.  The ambient `cutoff =
(datetime.now() - timedelta(days=SEEN_TTL_DAYS)).isoformat()` is passed
explicitly; ISO-8601 strings of a common format compare lexicographically
as instants. -/
def prune_seen (cutoff : String) (seen : List (String × SeenEntry)) :
    List (String × SeenEntry) :=
  seen.filter (fun p => strLeB cutoff (firstSeenD p.2))

/-- One persisted store row, as built in `main.py` (lines 69–87). -/
structure RowModel where
  rfp_id : String
  hash : String
  source : String
  state : String
  title : String
  agency : String
  status : String
  posted_date : String
  close_date : String
  url : String
  description : String
  amount : String
  keyword_match : Bool
  matched_keywords : String
  key_terms : String
  scrape_date : String
  scrape_timestamp : String
deriving Repr, DecidableEq

/-- `append_rfps(rows)` acting on the persisted table: with no rows the file
is untouched and 0 is returned; otherwise the existing table is read, the
new rows are concatenated after it, and the combined table is written back.
Returns the new table and the count written. -/
def append_rfps (store rows : List RowModel) : List RowModel × Nat :=
  if rows.isEmpty then (store, 0) else (store ++ rows, rows.length)

/-! ## `main.py` — the per-run dedup / classify / store loop -/

/-- `", ".flatten(xs)`. -/
def joinComma (l : List String) : String := String.intercalate ", " l

/-- The row dict appended for one accepted RFP (`main.py` lines 69–87). -/
def mkRow (now sd : String) (rfp : Rfp) (h : String) : RowModel :=
  { rfp_id := rfp.id, hash := h, source := rfp.source, state := rfp.state,
    title := rfp.title, agency := rfp.agency, status := rfp.status,
    posted_date := rfp.posted_date, close_date := rfp.close_date,
    url := rfp.url, description := rfp.description, amount := rfp.amount,
    keyword_match := (classify_rfp rfp).1,
    matched_keywords := joinComma (classify_rfp rfp).2,
    key_terms := joinComma (extract_key_terms rfp),
    scrape_date := sd, scrape_timestamp := now }

/-- `h in seen` on the seen dict. -/
def seenHas (seen : List (String × SeenEntry)) (h : String) : Bool :=
  seen.any (fun p => p.1 == h)

/-- The dedup loop of `main()` (lines 52–87): hash each notice; skip it if
the hash is already seen, else register the hash (`first_seen = now`) and
build its store row.  Returns the grown seen-set and the new rows. -/
def processRfps (now sd : String) (seen : List (String × SeenEntry)) :
    List Rfp → List (String × SeenEntry) × List RowModel
  | [] => (seen, [])
  | rfp :: rest =>
    let h := rfp_hash rfp
    if seenHas seen h then processRfps now sd seen rest
    else
      let out := processRfps now sd (seen ++ [(h, ⟨some now, rfp.title, rfp.state⟩)]) rest
      (out.1, mkRow now sd rfp h :: out.2)

/-- One whole persistence pass of `main()` (lines 46–92): dedup loop, then
`seen = prune_seen(seen); save_seen(seen); written = append_rfps(new_rfps)`.
Returns the persisted seen-set, the persisted store and the written count. -/
def runOnce (now cutoff sd : String) (seen : List (String × SeenEntry))
    (store : List RowModel) (rfps : List Rfp) :
    List (String × SeenEntry) × List RowModel × Nat :=
  let out := processRfps now sd seen rfps
  let app := append_rfps store out.2
  (prune_seen cutoff out.1, app.1, app.2)

/-- The accepted (non-duplicate) notices of a run, defined purely from the
hash keys — classification plays no role in acceptance. -/
def acceptedRfps (keys : List String) : List Rfp → List Rfp
  | [] => []
  | rfp :: rest =>
    let h := rfp_hash rfp
    if keys.contains h then acceptedRfps keys rest
    else rfp :: acceptedRfps (keys ++ [h]) rest


/-! ## `analyze_keywords.py` — snapshot loading and new/rising-term detection

TF-IDF scores are floats in the source, modelled by `ℚ` (the threshold
literal `0.10` is modelled by `1/10`). -/

/-- One persisted top-terms snapshot (`data/top_terms.json`). -/
structure Snapshot where
  timestamp : String
  top_tfidf : List (String × ℚ)
  gap_terms : List (String × ℚ)
  rake_phrases : List String
deriving DecidableEq

/-- The state of the snapshot file on disk at load time. -/
inductive SnapFile where
  | missing
  | corrupt
  | valid (s : Snapshot)
deriving DecidableEq

/-- `_load_previous_top_terms()`: a missing file, a `json.JSONDecodeError`
or an `IOError` all yield the empty dict `{}`, whose `.get` defaults are an
empty `top_tfidf` map and the timestamp `"never"`. -/
def load_prev : SnapFile → Snapshot
  | .valid s => s
  | _ => { timestamp := "never", top_tfidf := [], gap_terms := [], rake_phrases := [] }

/-- The rising-term scan of `detect_new_terms` (lines 458–463): for each
`(term, score)` of the current snapshot map, if `term` is in the previous
map with `prev_score > 0` and `(score - prev_score) / prev_score > 0.10`,
emit `(term, prev_score, score)`. -/
def risingAll (curTop prevTop : List (String × ℚ)) : List (String × ℚ × ℚ) :=
  curTop.filterMap (fun p =>
    match lookupA prevTop p.1 with
    | some prevScore =>
      if 0 < prevScore ∧ (p.2 - prevScore) / prevScore > 1 / 10 then
        some (p.1, prevScore, p.2) else none
    | none => none)

/-- Descending order by relative increase:
`rising.sort(key=lambda x: (x[2] - x[1]) / x[1], reverse=True)`. -/
def risingGt (a b : String × ℚ × ℚ) : Bool :=
  decide ((b.2.2 - b.2.1) / b.2.1 < (a.2.2 - a.2.1) / a.2.1)

/-- The diff sections the report of `detect_new_terms` can emit, plus the
snapshot handed to `_save_top_terms`.  On the baseline branch the section
fields stay empty: no new/dropped/rising output is produced. -/
structure Report where
  prevTimestamp : String
  currentTimestamp : String
  isBaseline : Bool
  newTerms : List String
  droppedTerms : List String
  rising : List (String × ℚ × ℚ)
  newGaps : List String
  newRake : List String
  saved : Snapshot
deriving DecidableEq

/-- Sorted set difference `sorted(set(a) - set(b))` on key lists. -/
def sortedDiff (a b : List String) : List String :=
  stableSortBy strLtB ((dedupKeepFirst a).filter (fun k => !b.contains k))

/-- `detect_new_terms(current_top, current_gaps, current_rake, …)`: builds
the current snapshot (top 50 TF-IDF terms, top 30 gap terms, top 50 RAKE
phrases), loads the previous snapshot, and either reports the baseline
(no diff sections) or emits the new / dropped / rising / gap / RAKE diffs;
in both branches the snapshot is saved.  The function is total: a missing
or corrupt previous snapshot is data, not an error. -/
def detect_new_terms (currentTop currentGaps : List (String × ℚ))
    (currentRake : List (ℚ × String)) (file : SnapFile) (now : String) : Report :=
  let previous := load_prev file
  let snapshot : Snapshot :=
    { timestamp := now, top_tfidf := currentTop.take 50,
      gap_terms := currentGaps.take 30,
      rake_phrases := (currentRake.take 50).map (fun p => p.2) }
  if previous.top_tfidf.isEmpty then
    { prevTimestamp := previous.timestamp, currentTimestamp := now,
      isBaseline := true, newTerms := [], droppedTerms := [], rising := [],
      newGaps := [], newRake := [], saved := snapshot }
  else
    let curKeys := snapshot.top_tfidf.map (fun p => p.1)
    let prevKeys := previous.top_tfidf.map (fun p => p.1)
    let rising := stableSortBy risingGt (risingAll snapshot.top_tfidf previous.top_tfidf)
    { prevTimestamp := previous.timestamp, currentTimestamp := now,
      isBaseline := false,
      newTerms := sortedDiff curKeys prevKeys,
      droppedTerms := sortedDiff prevKeys curKeys,
      rising := rising.take 15,
      newGaps := sortedDiff (snapshot.gap_terms.map (fun p => p.1))
        (previous.gap_terms.map (fun p => p.1)),
      newRake := sortedDiff snapshot.rake_phrases previous.rake_phrases,
      saved := snapshot }


/-! ## Concrete inputs used by the claim instances -/

/-- Scenario C text of the spec, as a record with empty description and
agency. -/
def scenC : Rfp :=
  { title := "Transportation planning and transit study for regional economic development" }

/-- Scenario B text of the spec: contains exclusion fragments ("catering",
"forum") and the inclusion phrase "economic development". -/
def scenB : Rfp :=
  { title := "RFP for catering services supporting an economic development forum" }

/-- Scenario A notice of the spec. -/
def r0 : Rfp := { state := "TX", id := "123", title := "Economic Impact Study" }

/-- A seen-set holding a stale entry (far older than the TTL) for `r0`. -/
def staleSeen : List (String × SeenEntry) :=
  [(rfp_hash r0,
    { first_seen := some "1990-01-01T00:00:00", title := "Economic Impact Study",
      state := "TX" })]

/-- Two records whose `(state, id, title)` triples differ but whose
`state-id-title` concatenations coincide (`"TX-" / ""` versus `"TX" / "-"`). -/
def c9A : Rfp := { state := "TX-", id := "", title := "Economic Impact Study" }

/-- See `c9A`. -/
def c9B : Rfp := { state := "TX", id := "-", title := "Economic Impact Study" }

/-- Previous top-TF-IDF map: sixteen terms, each with mean score 0.0100. -/
def c7prevSnap : Snapshot :=
  { timestamp := "2026-10-11T06:00:00", gap_terms := [], rake_phrases := [],
    top_tfidf := [("t01", (1/100 : ℚ)), ("t02", (1/100 : ℚ)), ("t03", (1/100 : ℚ)), ("t04", (1/100 : ℚ)), ("t05", (1/100 : ℚ)), ("t06", (1/100 : ℚ)), ("t07", (1/100 : ℚ)), ("t08", (1/100 : ℚ)), ("t09", (1/100 : ℚ)), ("t10", (1/100 : ℚ)), ("t11", (1/100 : ℚ)), ("t12", (1/100 : ℚ)), ("t13", (1/100 : ℚ)), ("t14", (1/100 : ℚ)), ("t15", (1/100 : ℚ)), ("t16", (1/100 : ℚ))] }

/-- Current top-TF-IDF map: the same sixteen terms, with score
`(120 + i) / 10000` for term `i` — every term rose by more than 10%, and
`"t01"` (a 21% rise) rose the least. -/
def c7cur : List (String × ℚ) := [("t01", (121/10000 : ℚ)), ("t02", (122/10000 : ℚ)), ("t03", (123/10000 : ℚ)), ("t04", (124/10000 : ℚ)), ("t05", (125/10000 : ℚ)), ("t06", (126/10000 : ℚ)), ("t07", (127/10000 : ℚ)), ("t08", (128/10000 : ℚ)), ("t09", (129/10000 : ℚ)), ("t10", (130/10000 : ℚ)), ("t11", (131/10000 : ℚ)), ("t12", (132/10000 : ℚ)), ("t13", (133/10000 : ℚ)), ("t14", (134/10000 : ℚ)), ("t15", (135/10000 : ℚ)), ("t16", (136/10000 : ℚ))]

/-- A plain store row used to instantiate the append-only frame property. -/
def c8rowA : RowModel :=
  { rfp_id := "a", hash := "ha", source := "", state := "", title := "",
    agency := "", status := "", posted_date := "", close_date := "", url := "",
    description := "", amount := "", keyword_match := false,
    matched_keywords := "", key_terms := "", scrape_date := "",
    scrape_timestamp := "" }

/-- A second plain store row. -/
def c8rowB : RowModel :=
  { c8rowA with rfp_id := "b", hash := "hb", keyword_match := true }


/-- The bigram-dominance property of one extraction result: every returned
term that contains no space (a unigram) fails Python substring containment
in every returned term that contains a space (a bigram). -/
def noUniSubOfBi (l : List String) : Bool :=
  l.all (fun u =>
    decide (' ' ∈ u.data) ||
      l.all (fun b => !(decide (' ' ∈ b.data)) || !(isSubB u.data b.data)))

/-! ## Helper lemmas -/

theorem data_append (s t : String) : (s ++ t).data = s.data ++ t.data := rfl

theorem insertAfterEq_mem {lt : α → α → Bool} {x a : α} {l : List α} :
    a ∈ insertAfterEq lt x l ↔ a = x ∨ a ∈ l := by
  induction l with
  | nil => simp [insertAfterEq]
  | cons y ys ih =>
    simp only [insertAfterEq]
    split
    · simp
    · simp only [List.mem_cons, ih]
      tauto

theorem insertAfterEq_length {lt : α → α → Bool} (x : α) (l : List α) :
    (insertAfterEq lt x l).length = l.length + 1 := by
  induction l with
  | nil => rfl
  | cons y ys ih =>
    simp only [insertAfterEq]
    split
    · simp
    · simp [ih]

theorem stableSortBy_foldl_mem {lt : α → α → Bool} :
    ∀ (l acc : List α) (a : α),
      a ∈ l.foldl (fun acc x => insertAfterEq lt x acc) acc ↔ a ∈ acc ∨ a ∈ l := by
  intro l
  induction l with
  | nil => simp
  | cons x xs ih =>
    intro acc a
    simp only [List.foldl_cons, ih, insertAfterEq_mem, List.mem_cons]
    tauto

theorem stableSortBy_mem {lt : α → α → Bool} {l : List α} {a : α} :
    a ∈ stableSortBy lt l ↔ a ∈ l := by
  simpa [stableSortBy] using stableSortBy_foldl_mem l [] a

theorem stableSortBy_foldl_length {lt : α → α → Bool} :
    ∀ (l acc : List α),
      (l.foldl (fun acc x => insertAfterEq lt x acc) acc).length = acc.length + l.length := by
  intro l
  induction l with
  | nil => simp
  | cons x xs ih =>
    intro acc
    simp only [List.foldl_cons, ih, insertAfterEq_length, List.length_cons]
    omega

theorem stableSortBy_length {lt : α → α → Bool} (l : List α) :
    (stableSortBy lt l).length = l.length := by
  simpa [stableSortBy] using stableSortBy_foldl_length l []

theorem pickTerms_length_le :
    ∀ (l : List (String × Nat)) (cap : Nat) (seen acc : List String),
      acc.length < cap → (pickTerms cap seen acc l).length ≤ cap := by
  intro l
  induction l with
  | nil =>
    intro cap seen acc h
    simp only [pickTerms, List.length_reverse]
    omega
  | cons p rest ih =>
    intro cap seen acc h
    obtain ⟨t, c⟩ := p
    simp only [pickTerms]
    split
    · exact ih cap seen acc h
    · split
      · simp only [List.length_reverse, List.length_cons]
        omega
      · exact ih cap (t :: seen) (t :: acc) (by simp; omega)

theorem pickTerms_mem :
    ∀ (l : List (String × Nat)) (cap : Nat) (seen acc : List String) (t : String),
      t ∈ pickTerms cap seen acc l → t ∈ acc ∨ t ∈ l.map Prod.fst := by
  intro l
  induction l with
  | nil =>
    intro cap seen acc t h
    simp only [pickTerms, List.mem_reverse] at h
    exact Or.inl h
  | cons p rest ih =>
    intro cap seen acc t h
    obtain ⟨u, c⟩ := p
    simp only [pickTerms] at h
    split at h
    · rcases ih cap seen acc t h with h1 | h2
      · exact Or.inl h1
      · right; simp [h2]
    · split at h
      · simp only [List.mem_reverse, List.mem_cons] at h
        rcases h with h | h
        · right; simp [h]
        · exact Or.inl h
      · rcases ih cap (u :: seen) (u :: acc) t h with h1 | h2
        · rcases List.mem_cons.mp h1 with h | h
          · right; simp [h]
          · exact Or.inl h
        · right; simp [h2]

theorem countInsert_keys {m : List (String × Nat)} {t : String} {x : String × Nat}
    (hx : x ∈ countInsert m t) : x.1 = t ∨ ∃ y ∈ m, x.1 = y.1 := by
  unfold countInsert at hx
  split at hx
  · obtain ⟨y, hy, hxy⟩ := List.mem_map.mp hx
    right
    refine ⟨y, hy, ?_⟩
    by_cases h : (y.1 == t) = true <;> simp [h] at hxy <;> simp [← hxy]
  · rcases List.mem_append.mp hx with h | h
    · right; exact ⟨x, h, rfl⟩
    · left
      simp only [List.mem_singleton] at h
      simp [h]

theorem countList_foldl_keys :
    ∀ (l : List String) (acc : List (String × Nat)) (x : String × Nat),
      x ∈ l.foldl countInsert acc → (∃ y ∈ acc, x.1 = y.1) ∨ x.1 ∈ l := by
  intro l
  induction l with
  | nil => intro acc x hx; exact Or.inl ⟨x, hx, rfl⟩
  | cons a rest ih =>
    intro acc x hx
    simp only [List.foldl_cons] at hx
    rcases ih (countInsert acc a) x hx with ⟨y, hy, hxy⟩ | h
    · rcases countInsert_keys hy with h1 | ⟨z, hz, hyz⟩
      · right; simp [hxy, h1]
      · left; exact ⟨z, hz, by rw [hxy, hyz]⟩
    · right; simp [h]

theorem countList_keys {l : List String} {x : String × Nat} (hx : x ∈ countList l) :
    x.1 ∈ l := by
  rcases countList_foldl_keys l [] x hx with ⟨y, hy, _⟩ | h
  · simp at hy
  · exact h

theorem wordsAux_no_ws :
    ∀ (l cur : List Char), (∀ c ∈ cur, c.isWhitespace = false) →
      ∀ w ∈ wordsAux cur l, ∀ c ∈ w, c.isWhitespace = false := by
  intro l
  induction l with
  | nil =>
    intro cur hcur w hw c hc
    unfold wordsAux at hw
    split at hw
    · simp at hw
    · simp only [List.mem_singleton] at hw
      subst hw
      exact hcur c (List.mem_reverse.mp hc)
  | cons d ds ih =>
    intro cur hcur w hw c hc
    unfold wordsAux at hw
    split at hw
    · split at hw
      · exact ih [] (by simp) w hw c hc
      · rcases List.mem_cons.mp hw with h | h
        · subst h
          exact hcur c (List.mem_reverse.mp hc)
        · exact ih [] (by simp) w h c hc
    · refine ih (d :: cur) ?_ w hw c hc
      intro e he
      rcases List.mem_cons.mp he with h | h
      · subst h
        simp only [Bool.not_eq_true] at *
        assumption
      · exact hcur e h

theorem tokenize_no_space {text : String} {t : String} (ht : t ∈ tokenize text) :
    ' ' ∉ t.data := by
  intro hsp
  simp only [tokenize, List.mem_filter, List.mem_map] at ht
  obtain ⟨⟨w, hw, hwt⟩, _⟩ := ht
  have := wordsAux_no_ws _ [] (by simp) w hw ' ' (by rw [← hwt] at hsp; exact hsp)
  simp at this

theorem bigramsOf_space :
    ∀ (l : List String) (b : String), b ∈ bigramsOf l → ' ' ∈ b.data := by
  intro l
  induction l with
  | nil => simp [bigramsOf]
  | cons a rest ih =>
    intro b hb
    cases rest with
    | nil => simp [bigramsOf] at hb
    | cons a2 rest2 =>
      simp only [bigramsOf, List.mem_cons] at hb
      rcases hb with h | h
      · subst h
        simp [data_append]
      · exact ih b h

theorem scoredOf_mem {tokens : List String} {x : String × Nat} (hx : x ∈ scoredOf tokens) :
    (∃ bp ∈ countList (bigramsOf tokens), x.1 = bp.1) ∨
      (x.1 ∈ tokens ∧
        ∀ bp ∈ countList (bigramsOf tokens), isSubB x.1.data bp.1.data = false) := by
  simp only [scoredOf, List.mem_append, List.mem_map, List.mem_filter] at hx
  rcases hx with ⟨p, hp, hxp⟩ | ⟨p, ⟨hp, hcond⟩, hxp⟩
  · left
    exact ⟨p, hp, by rw [← hxp]⟩
  · right
    have hx1 : x.1 = p.1 := by rw [← hxp]
    constructor
    · rw [hx1]; exact countList_keys hp
    · intro bp hbp
      rw [hx1]
      simp only [Bool.not_eq_true'] at hcond
      simpa using List.any_eq_false.mp hcond bp hbp

theorem extract_mem {r : Rfp} {t : String} (ht : t ∈ extract_key_terms r) :
    t ∈ (scoredOf (tokenize (String.mk (textOf r)))).map Prod.fst := by
  simp only [extract_key_terms] at ht
  split at ht
  · simp at ht
  · split at ht
    · simp at ht
    · rcases pickTerms_mem _ _ _ _ _ ht with h | h
      · simp at h
      · obtain ⟨p, hp, hpt⟩ := List.mem_map.mp h
        exact List.mem_map.mpr ⟨p, stableSortBy_mem.mp hp, hpt⟩


/-! ## Claim theorems -/

/-- C2: exclusion precedence — for every RFP record whose combined
title+description+agency text contains a match of the exclusion pattern,
`classify_rfp` returns `(false, [])`, with no condition on whether
inclusion keywords are also present in that text. -/
theorem exclusion_precedence (rfp : Rfp)
    (h : excludeSearch (classifyText rfp) = true) :
    classify_rfp rfp = (false, []) := by
  simp [classify_rfp, h]

set_option maxRecDepth 200000 in
/-- Witness for C2 at Scenario B of the spec: the text contains exclusion
fragments ("catering", "forum") and at least one inclusion keyword
("economic development"), and classification returns `(false, [])`. -/
theorem exclusion_precedence_witness :
    excludeSearch (classifyText scenB) = true ∧
    (findallKw (classifyText scenB)).isEmpty = false ∧
    classify_rfp scenB = (false, []) :=
  ⟨by decide, by decide, exclusion_precedence scenB (by decide)⟩

set_option maxRecDepth 200000 in
/-- C3, counterexample: on the Scenario C text, `classify_rfp` does NOT
return the four keywords claimed — `re.findall` collects non-overlapping
matches, and "economic development" is consumed by the earlier
"regional economic" match. -/
theorem scenarioC_counterexample :
    classify_rfp scenC ≠
      (true, ["transportation planning", "transit study", "regional economic",
              "economic development"]) := by
  decide

set_option maxRecDepth 200000 in
/-- C3, amended: on the Scenario C text, `classify_rfp` returns
`matched = true` with the non-overlapping, left-to-right matches
`["transportation planning", "transit study", "regional economic"]` in
first-occurrence order, lowercased; an inclusion phrase overlapping an
already-consumed match (here "economic development") is not reported. -/
theorem scenarioC_amended :
    classify_rfp scenC =
      (true, ["transportation planning", "transit study", "regional economic"]) := by
  decide

/-- C4: key-term cap — for every RFP record the extracted key-term list has
length at most `MAX_KEY_TERMS = 10`, and on the record with all fields
empty (empty text) the result is `[]`, not an error. -/
theorem key_terms_cap :
    (∀ rfp : Rfp, (extract_key_terms rfp).length ≤ MAX_KEY_TERMS) ∧
    extract_key_terms {} = [] := by
  constructor
  · intro rfp
    simp only [extract_key_terms]
    split
    · simp
    · split
      · simp
      · exact pickTerms_length_le _ _ _ _ (by simp [MAX_KEY_TERMS])
  · decide

/-- C5: bigram dominance — in any one extraction result, no returned
unigram (space-free term) is a Python substring of any returned bigram
(term containing a space). -/
theorem bigram_dominance : ∀ rfp : Rfp, noUniSubOfBi (extract_key_terms rfp) = true := by
  intro rfp
  rw [noUniSubOfBi, List.all_eq_true]
  intro u hu
  by_cases hus : ' ' ∈ u.data
  · simp [hus]
  · simp only [decide_eq_true_eq, Bool.or_eq_true, List.all_eq_true]
    right
    intro b hb
    by_cases hbs : ' ' ∈ b.data
    · have hu2 := extract_mem hu
      obtain ⟨pu, hpu, hput⟩ := List.mem_map.mp hu2
      rcases scoredOf_mem hpu with ⟨bp, hbp, heq⟩ | ⟨htok, hcond⟩
      · have hsp : ' ' ∈ bp.1.data := bigramsOf_space _ _ (countList_keys hbp)
        rw [← heq, hput] at hsp
        exact absurd hsp hus
      · have hb2 := extract_mem hb
        obtain ⟨pb, hpb, hpbt⟩ := List.mem_map.mp hb2
        rcases scoredOf_mem hpb with ⟨bpb, hbpb, heqb⟩ | ⟨htokb, _⟩
        · have hfalse : isSubB pu.1.data bpb.1.data = false := hcond bpb hbpb
          rw [hput] at hfalse
          rw [hpbt] at heqb
          rw [← heqb] at hfalse
          simp [hfalse]
        · rw [hpbt] at htokb
          exact absurd hbs (tokenize_no_space htokb)
    · simp [hbs]

/-- C9: content-hash delimiter ambiguity — the records `c9A` and `c9B` have
distinct `(state, id, title)` triples, yet their `state-id-title`
concatenations coincide, so `rfp_hash` gives them the identical content
hash (already before truncation to 16 hex chars). -/
theorem hash_delimiter_ambiguity :
    rfp_hash c9A = rfp_hash c9B ∧
    (c9A.state, c9A.id, c9A.title) ≠ (c9B.state, c9B.id, c9B.title) := by
  constructor
  · have h : rfp_raw c9A = rfp_raw c9B := by decide
    unfold rfp_hash
    rw [h]
  · decide


/-- Auxiliary: a nonempty string is strictly above the empty string in
code-point order. -/
theorem strLtB_empty_of_ne {s : String} (h : s ≠ "") : strLtB "" s = true := by
  cases s with
  | mk data =>
    cases data with
    | nil => exact absurd rfl h
    | cons c cs => rfl

/-- C6: baseline behaviour — when the previous snapshot file is missing or
unreadable/corrupt, `detect_new_terms` runs to completion (it is a total
function), reports the baseline, emits no new/dropped/rising (nor gap/RAKE)
diff sections, and saves the freshly built snapshot. -/
theorem baseline_behaviour :
    ∀ (curTop curGaps : List (String × ℚ)) (curRake : List (ℚ × String)) (now : String),
      detect_new_terms curTop curGaps curRake .missing now =
        { prevTimestamp := "never", currentTimestamp := now, isBaseline := true,
          newTerms := [], droppedTerms := [], rising := [], newGaps := [], newRake := [],
          saved := { timestamp := now, top_tfidf := curTop.take 50,
                     gap_terms := curGaps.take 30,
                     rake_phrases := (curRake.take 50).map (fun p => p.2) } } ∧
      detect_new_terms curTop curGaps curRake .corrupt now =
        { prevTimestamp := "never", currentTimestamp := now, isBaseline := true,
          newTerms := [], droppedTerms := [], rising := [], newGaps := [], newRake := [],
          saved := { timestamp := now, top_tfidf := curTop.take 50,
                     gap_terms := curGaps.take 30,
                     rake_phrases := (curRake.take 50).map (fun p => p.2) } } := by
  intro curTop curGaps curRake now
  exact ⟨rfl, rfl⟩

/-- C10: prune comparison semantics — `prune_seen` keeps exactly the entries
whose `first_seen` string is lexicographically at or above the cutoff
string; an entry with a missing or empty `first_seen` is always removed
(for any nonempty cutoff); and an entry whose `first_seen` equals the
current instant `now` is never removed when the cutoff is at or below `now`
(as it is in the source, where the cutoff is `now` minus the TTL). -/
theorem prune_semantics :
    (∀ (cutoff : String) (seen : List (String × SeenEntry)) (p : String × SeenEntry),
        p ∈ prune_seen cutoff seen ↔
          p ∈ seen ∧ strLeB cutoff (firstSeenD p.2) = true) ∧
    (∀ (cutoff : String) (seen : List (String × SeenEntry)) (p : String × SeenEntry),
        p ∈ seen → (p.2.first_seen = none ∨ p.2.first_seen = some "") →
        cutoff ≠ "" → p ∉ prune_seen cutoff seen) ∧
    (∀ (cutoff now : String) (seen : List (String × SeenEntry)) (p : String × SeenEntry),
        p ∈ seen → p.2.first_seen = some now → strLeB cutoff now = true →
        p ∈ prune_seen cutoff seen) := by
  refine ⟨?_, ?_, ?_⟩
  · intro cutoff seen p
    simp [prune_seen, List.mem_filter]
  · intro cutoff seen p _ hfs hcut
    simp only [prune_seen, List.mem_filter, not_and]
    intro _
    have hempty : firstSeenD p.2 = "" := by
      rcases hfs with h | h <;> simp [firstSeenD, h]
    rw [hempty, strLeB, strLtB_empty_of_ne hcut]
    simp
  · intro cutoff now seen p hmem hfs hle
    simp only [prune_seen, List.mem_filter]
    refine ⟨hmem, ?_⟩
    rw [firstSeenD, hfs]
    exact hle

/-- Witness for C10: a concrete membership equivalence; a concrete entry
with a missing `first_seen` that is pruned; and a concrete entry stamped
with the current instant that survives a 90-day cutoff. -/
theorem prune_semantics_witness :
    (("h2", ({ first_seen := none } : SeenEntry)) ∈
        prune_seen "2026-07-14T09:00:00" [("h2", { first_seen := none })] ↔
      ("h2", ({ first_seen := none } : SeenEntry)) ∈
          [("h2", ({ first_seen := none } : SeenEntry))] ∧
        strLeB "2026-07-14T09:00:00" (firstSeenD { first_seen := none }) = true) ∧
    ("h2", ({ first_seen := none } : SeenEntry)) ∉
      prune_seen "2026-07-14T09:00:00" [("h2", { first_seen := none })] ∧
    ("h1", ({ first_seen := some "2026-10-12T09:00:00" } : SeenEntry)) ∈
      prune_seen "2026-07-14T09:00:00"
        [("h1", { first_seen := some "2026-10-12T09:00:00" })] :=
  ⟨prune_semantics.1 _ _ _,
   prune_semantics.2.1 _ _ _ (by simp) (Or.inl rfl) (by decide),
   prune_semantics.2.2 _ "2026-10-12T09:00:00" _ _ (by simp) rfl (by decide)⟩


/-- Auxiliary: membership test on the seen dict equals key-list containment. -/
theorem seenHas_eq_contains (seen : List (String × SeenEntry)) (h : String) :
    seenHas seen h = (seen.map Prod.fst).contains h := by
  induction seen with
  | nil => rfl
  | cons p rest ih =>
    simp only [seenHas, List.any_cons, List.map_cons, List.contains_cons] at *
    rw [ih]
    by_cases he : p.1 = h
    · subst he; simp
    · rw [beq_eq_false_iff_ne.mpr he, beq_eq_false_iff_ne.mpr (Ne.symm he)]

/-- Auxiliary: the rows built by one run carry exactly the hashes of the
accepted (hash-fresh) notices — acceptance never looks at classification. -/
theorem processRfps_rows_hashes :
    ∀ (rfps : List Rfp) (now sd : String) (seen : List (String × SeenEntry)),
      (processRfps now sd seen rfps).2.map (fun row => row.hash) =
        (acceptedRfps (seen.map Prod.fst) rfps).map rfp_hash := by
  intro rfps
  induction rfps with
  | nil => intro now sd seen; rfl
  | cons r rest ih =>
    intro now sd seen
    simp only [processRfps, acceptedRfps, ← seenHas_eq_contains]
    by_cases hc : seenHas seen (rfp_hash r) = true
    · simp only [hc, if_true]
      exact ih now sd seen
    · have hc2 : seenHas seen (rfp_hash r) = false := by simpa using hc
      simp only [hc2, Bool.false_eq_true, if_false, List.map_cons]
      have hrec := ih now sd (seen ++ [(rfp_hash r, ⟨some now, r.title, r.state⟩)])
      simp only [List.map_append, List.map_cons, List.map_nil] at hrec
      rw [hrec]
      rfl

/-- C8: append-only store frame property — `append_rfps` with nonempty rows
writes back exactly the prior table followed by the new rows (the prior rows
unchanged, in order, recoverable as the prefix of the result) and returns
the appended count; and the rows a run writes are in bijection (by content
hash) with the hash-fresh notices of the run, a notion defined without any
reference to classification — so every new non-duplicate notice is written
regardless of its classification outcome, and no existing row is updated or
deleted. -/
theorem append_only_store :
    ∀ (store rows : List RowModel) (now sd : String)
      (seen : List (String × SeenEntry)) (rfps : List Rfp),
      rows ≠ [] →
      (append_rfps store rows).1 = store ++ rows ∧
      (append_rfps store rows).2 = rows.length ∧
      (append_rfps store rows).1.take store.length = store ∧
      (processRfps now sd seen rfps).2.map (fun row => row.hash) =
        (acceptedRfps (seen.map Prod.fst) rfps).map rfp_hash := by
  intro store rows now sd seen rfps hne
  have hie : rows.isEmpty = false := by
    cases rows with
    | nil => exact absurd rfl hne
    | cons a l => rfl
  refine ⟨?_, ?_, ?_, processRfps_rows_hashes rfps now sd seen⟩
  · simp [append_rfps, hie]
  · simp [append_rfps, hie]
  · simp [append_rfps, hie, List.take_left]

/-- Witness for C8 at a concrete one-row store and one new row. -/
theorem append_only_store_witness :
    (append_rfps [c8rowA] [c8rowB]).1 = [c8rowA] ++ [c8rowB] ∧
    (append_rfps [c8rowA] [c8rowB]).2 = [c8rowB].length ∧
    (append_rfps [c8rowA] [c8rowB]).1.take [c8rowA].length = [c8rowA] ∧
    (processRfps "" "" [] []).2.map (fun row => row.hash) =
      (acceptedRfps (([] : List (String × SeenEntry)).map Prod.fst) []).map rfp_hash :=
  append_only_store [c8rowA] [c8rowB] "" "" [] [] (by simp)


/-- Auxiliary: `seenHas` as an existential over the pairs. -/
theorem seenHas_iff {seen : List (String × SeenEntry)} {h : String} :
    seenHas seen h = true ↔ ∃ p ∈ seen, p.1 = h := by
  simp [seenHas, List.any_eq_true]

/-- Auxiliary: the dedup loop only ever adds seen entries. -/
theorem processRfps_seen_mono :
    ∀ (rfps : List Rfp) (now sd : String) (seen : List (String × SeenEntry))
      (p : String × SeenEntry),
      p ∈ seen → p ∈ (processRfps now sd seen rfps).1 := by
  intro rfps
  induction rfps with
  | nil => intro now sd seen p hp; exact hp
  | cons r rest ih =>
    intro now sd seen p hp
    simp only [processRfps]
    split
    · exact ih now sd seen p hp
    · exact ih now sd _ p (List.mem_append_left _ hp)

/-- Auxiliary: every entry of the final seen-set either pre-existed or was
inserted this run with `first_seen = now`. -/
theorem processRfps_seen_src :
    ∀ (rfps : List Rfp) (now sd : String) (seen : List (String × SeenEntry))
      (p : String × SeenEntry),
      p ∈ (processRfps now sd seen rfps).1 →
      p ∈ seen ∨ p.2.first_seen = some now := by
  intro rfps
  induction rfps with
  | nil => intro now sd seen p hp; exact Or.inl hp
  | cons r rest ih =>
    intro now sd seen p hp
    simp only [processRfps] at hp
    split at hp
    · exact ih now sd seen p hp
    · rcases ih now sd _ p hp with h | h
      · rcases List.mem_append.mp h with h2 | h2
        · exact Or.inl h2
        · simp only [List.mem_singleton] at h2
          subst h2
          exact Or.inr rfl
      · exact Or.inr h

/-- Auxiliary: after the loop, every input notice has its hash in the
seen-set (either it was already there, or it was inserted on acceptance). -/
theorem processRfps_hash_present :
    ∀ (rfps : List Rfp) (now sd : String) (seen : List (String × SeenEntry))
      (r : Rfp), r ∈ rfps →
      ∃ p ∈ (processRfps now sd seen rfps).1, p.1 = rfp_hash r := by
  intro rfps
  induction rfps with
  | nil => intro now sd seen r hr; simp at hr
  | cons r2 rest ih =>
    intro now sd seen r hr
    simp only [processRfps]
    rcases List.mem_cons.mp hr with h | h
    · subst h
      split
      · obtain ⟨p, hp, hph⟩ := seenHas_iff.mp (by assumption)
        exact ⟨p, processRfps_seen_mono rest now sd seen p hp, hph⟩
      · refine ⟨(rfp_hash r, ⟨some now, r.title, r.state⟩), ?_, rfl⟩
        exact processRfps_seen_mono rest now sd _ _ (List.mem_append_right _ (by simp))
    · split
      · exact ih now sd seen r h
      · exact ih now sd _ r h

/-- Auxiliary: a run in which every notice is already seen accepts nothing
and leaves the in-memory seen-set unchanged. -/
theorem processRfps_none_accepted :
    ∀ (rfps : List Rfp) (now sd : String) (seen : List (String × SeenEntry)),
      (∀ r ∈ rfps, seenHas seen (rfp_hash r) = true) →
      processRfps now sd seen rfps = (seen, []) := by
  intro rfps
  induction rfps with
  | nil => intro now sd seen _; rfl
  | cons r rest ih =>
    intro now sd seen hall
    simp only [processRfps]
    rw [if_pos (hall r (by simp))]
    exact ih now sd seen (fun r2 h2 => hall r2 (by simp [h2]))

/-- C1, amended: dedup replay idempotence holds whenever every entry already
present in the seen-set before the first run whose key is the hash of one of
the input notices is within the TTL window (`first_seen` at or above the
first run's prune cutoff) — in particular whenever the first run starts from
an empty seen-set.  Entries inserted during the first run are stamped
`first_seen = now` and always survive the end-of-run prune (the cutoff is 90
days before `now`), so the replay accepts zero notices and appends zero rows:
the persisted store after the replay is exactly the store after the first
run. -/
theorem dedup_replay_amended :
    ∀ (seen0 : List (String × SeenEntry)) (store0 : List RowModel) (rfps : List Rfp)
      (now1 cutoff1 sd1 now2 cutoff2 sd2 : String),
      strLeB cutoff1 now1 = true →
      (∀ p ∈ seen0, (∃ r ∈ rfps, p.1 = rfp_hash r) →
          strLeB cutoff1 (firstSeenD p.2) = true) →
      (runOnce now2 cutoff2 sd2
          (runOnce now1 cutoff1 sd1 seen0 store0 rfps).1
          (runOnce now1 cutoff1 sd1 seen0 store0 rfps).2.1 rfps).2.2 = 0 ∧
      (runOnce now2 cutoff2 sd2
          (runOnce now1 cutoff1 sd1 seen0 store0 rfps).1
          (runOnce now1 cutoff1 sd1 seen0 store0 rfps).2.1 rfps).2.1 =
        (runOnce now1 cutoff1 sd1 seen0 store0 rfps).2.1 := by
  intro seen0 store0 rfps now1 cutoff1 sd1 now2 cutoff2 sd2 hle hfresh
  have hallseen : ∀ r ∈ rfps,
      seenHas (prune_seen cutoff1 (processRfps now1 sd1 seen0 rfps).1)
        (rfp_hash r) = true := by
    intro r hr
    obtain ⟨p, hp, hph⟩ := processRfps_hash_present rfps now1 sd1 seen0 r hr
    have hkeep : strLeB cutoff1 (firstSeenD p.2) = true := by
      rcases processRfps_seen_src rfps now1 sd1 seen0 p hp with h0 | hnew
      · exact hfresh p h0 ⟨r, hr, hph⟩
      · rw [firstSeenD, hnew]
        exact hle
    exact seenHas_iff.mpr ⟨p, List.mem_filter.mpr ⟨hp, hkeep⟩, hph⟩
  have hrun2 :
      processRfps now2 sd2 (prune_seen cutoff1 (processRfps now1 sd1 seen0 rfps).1)
        rfps = (prune_seen cutoff1 (processRfps now1 sd1 seen0 rfps).1, []) :=
    processRfps_none_accepted rfps now2 sd2 _ hallseen
  constructor
  · simp [runOnce, hrun2, append_rfps]
  · simp [runOnce, hrun2, append_rfps]

/-- C1, counterexample to the claim as stated: starting from a seen-set that
holds a stale (pre-TTL) entry for the notice `r0`, the first run rejects
`r0` (it accepts zero notices) but its end-of-run prune deletes the stale
entry, so the persisted seen-set no longer contains the hash; the identical
replay then accepts one notice and appends one new row to the store. -/
theorem dedup_replay_counterexample :
    (runOnce "2026-10-13T09:00:00" "2026-07-15T09:00:00" "2026-10-13"
        (runOnce "2026-10-12T09:00:00" "2026-07-14T09:00:00" "2026-10-12"
          staleSeen [] [r0]).1
        (runOnce "2026-10-12T09:00:00" "2026-07-14T09:00:00" "2026-10-12"
          staleSeen [] [r0]).2.1 [r0]).2.2 = 1 ∧
    (runOnce "2026-10-13T09:00:00" "2026-07-15T09:00:00" "2026-10-13"
        (runOnce "2026-10-12T09:00:00" "2026-07-14T09:00:00" "2026-10-12"
          staleSeen [] [r0]).1
        (runOnce "2026-10-12T09:00:00" "2026-07-14T09:00:00" "2026-10-12"
          staleSeen [] [r0]).2.1 [r0]).2.1 ≠
      (runOnce "2026-10-12T09:00:00" "2026-07-14T09:00:00" "2026-10-12"
        staleSeen [] [r0]).2.1 := by
  have h1 : processRfps "2026-10-12T09:00:00" "2026-10-12" staleSeen [r0] =
      (staleSeen, []) := by
    simp only [processRfps]
    rw [if_pos (by simp [seenHas, staleSeen])]
  have h2 : prune_seen "2026-07-14T09:00:00" staleSeen = [] := by
    rw [prune_seen, staleSeen]
    rw [List.filter_cons_of_neg (by decide), List.filter_nil]
  have h3 : processRfps "2026-10-13T09:00:00" "2026-10-13" [] [r0] =
      ([(rfp_hash r0, ⟨some "2026-10-13T09:00:00", r0.title, r0.state⟩)],
        [mkRow "2026-10-13T09:00:00" "2026-10-13" r0 (rfp_hash r0)]) := by
    simp [processRfps, seenHas]
  constructor
  · simp [runOnce, h1, h2, h3, append_rfps]
  · simp [runOnce, h1, h2, h3, append_rfps]

/-- Witness for C1 (amended): starting from the empty seen-set, processing
`[r0]` once and replaying it accepts zero notices and leaves the store
unchanged. -/
theorem dedup_replay_amended_witness :
    (runOnce "2026-10-13T09:00:00" "2026-07-15T09:00:00" "2026-10-13"
        (runOnce "2026-10-12T09:00:00" "2026-07-14T09:00:00" "2026-10-12"
          [] [] [r0]).1
        (runOnce "2026-10-12T09:00:00" "2026-07-14T09:00:00" "2026-10-12"
          [] [] [r0]).2.1 [r0]).2.2 = 0 ∧
    (runOnce "2026-10-13T09:00:00" "2026-07-15T09:00:00" "2026-10-13"
        (runOnce "2026-10-12T09:00:00" "2026-07-14T09:00:00" "2026-10-12"
          [] [] [r0]).1
        (runOnce "2026-10-12T09:00:00" "2026-07-14T09:00:00" "2026-10-12"
          [] [] [r0]).2.1 [r0]).2.1 =
      (runOnce "2026-10-12T09:00:00" "2026-07-14T09:00:00" "2026-10-12"
        [] [] [r0]).2.1 :=
  dedup_replay_amended [] [] [r0] "2026-10-12T09:00:00" "2026-07-14T09:00:00"
    "2026-10-12" "2026-10-13T09:00:00" "2026-07-15T09:00:00" "2026-10-13"
    (by decide) (by simp)


/-- Auxiliary: a qualifying `(term, score)` pair of the current map is
collected by the rising-term scan. -/
theorem risingAll_mem {curTop prevTop : List (String × ℚ)} {term : String} {s p : ℚ}
    (hcur : (term, s) ∈ curTop) (hl : lookupA prevTop term = some p)
    (hp : 0 < p) (hgt : (s - p) / p > 1 / 10) :
    (term, p, s) ∈ risingAll curTop prevTop := by
  rw [risingAll]
  refine List.mem_filterMap.mpr ⟨(term, s), hcur, ?_⟩
  simp only [hl]
  rw [if_pos ⟨hp, hgt⟩]

/-- C7, amended: a term of the current top-TF-IDF map whose previous score
is positive and whose score rose by more than 10% is always collected in
the rising list; the report's rising section, however, prints only the
top 15 rising terms by relative increase, so the term is guaranteed to
appear in the report only when at most 15 terms rose (as in Scenario E). -/
theorem rising_detection_amended :
    ∀ (prevSnap : Snapshot) (curTop curGaps : List (String × ℚ))
      (curRake : List (ℚ × String)) (now term : String) (s p : ℚ),
      (term, s) ∈ curTop.take 50 →
      lookupA prevSnap.top_tfidf term = some p →
      0 < p → (s - p) / p > 1 / 10 →
      (term, p, s) ∈ risingAll (curTop.take 50) prevSnap.top_tfidf ∧
      ((risingAll (curTop.take 50) prevSnap.top_tfidf).length ≤ 15 →
        term ∈ (detect_new_terms curTop curGaps curRake (.valid prevSnap) now).rising.map
          (fun x => x.1)) := by
  intro prevSnap curTop curGaps curRake now term s p hcur hl hp hgt
  have hmem := risingAll_mem hcur hl hp hgt
  refine ⟨hmem, ?_⟩
  intro hlen
  have hne : prevSnap.top_tfidf.isEmpty = false := by
    cases hh : prevSnap.top_tfidf with
    | nil => rw [hh] at hl; simp [lookupA] at hl
    | cons a l => rfl
  simp only [detect_new_terms, load_prev]
  rw [if_neg (by simp [hne])]
  have htake :
      (stableSortBy risingGt (risingAll (curTop.take 50) prevSnap.top_tfidf)).take 15 =
        stableSortBy risingGt (risingAll (curTop.take 50) prevSnap.top_tfidf) :=
    List.take_of_length_le (by rw [stableSortBy_length]; exact hlen)
  simp only [htake]
  exact List.mem_map.mpr ⟨(term, p, s), stableSortBy_mem.mpr hmem, rfl⟩

/-- C7, counterexample to the claim as stated: in `c7cur` versus
`c7prevSnap` all sixteen terms are in both maps with positive previous
scores and rises above 10%; the term `"t01"` qualifies (a 21% rise) but does
not appear in the report's rising section, which keeps only the top 15
rising terms by relative increase. -/
theorem rising_report_counterexample :
    lookupA c7prevSnap.top_tfidf "t01" = some (1/100 : ℚ) ∧
    lookupA c7cur "t01" = some (121/10000 : ℚ) ∧
    (0 : ℚ) < (1/100 : ℚ) ∧
    ((121/10000 : ℚ) - 1/100) / (1/100) > 1 / 10 ∧
    "t01" ∉
      (detect_new_terms c7cur [] [] (.valid c7prevSnap) "2026-10-12T06:00:00").rising.map
        (fun x => x.1) := by
  have l01 : lookupA c7prevSnap.top_tfidf "t01" = some (1/100 : ℚ) := rfl
  have l02 : lookupA c7prevSnap.top_tfidf "t02" = some (1/100 : ℚ) := rfl
  have l03 : lookupA c7prevSnap.top_tfidf "t03" = some (1/100 : ℚ) := rfl
  have l04 : lookupA c7prevSnap.top_tfidf "t04" = some (1/100 : ℚ) := rfl
  have l05 : lookupA c7prevSnap.top_tfidf "t05" = some (1/100 : ℚ) := rfl
  have l06 : lookupA c7prevSnap.top_tfidf "t06" = some (1/100 : ℚ) := rfl
  have l07 : lookupA c7prevSnap.top_tfidf "t07" = some (1/100 : ℚ) := rfl
  have l08 : lookupA c7prevSnap.top_tfidf "t08" = some (1/100 : ℚ) := rfl
  have l09 : lookupA c7prevSnap.top_tfidf "t09" = some (1/100 : ℚ) := rfl
  have l10 : lookupA c7prevSnap.top_tfidf "t10" = some (1/100 : ℚ) := rfl
  have l11 : lookupA c7prevSnap.top_tfidf "t11" = some (1/100 : ℚ) := rfl
  have l12 : lookupA c7prevSnap.top_tfidf "t12" = some (1/100 : ℚ) := rfl
  have l13 : lookupA c7prevSnap.top_tfidf "t13" = some (1/100 : ℚ) := rfl
  have l14 : lookupA c7prevSnap.top_tfidf "t14" = some (1/100 : ℚ) := rfl
  have l15 : lookupA c7prevSnap.top_tfidf "t15" = some (1/100 : ℚ) := rfl
  have l16 : lookupA c7prevSnap.top_tfidf "t16" = some (1/100 : ℚ) := rfl
  have htake : c7cur.take 50 = c7cur := rfl
  have hR : risingAll (c7cur.take 50) c7prevSnap.top_tfidf =
      [("t01", (1/100 : ℚ), (121/10000 : ℚ)), ("t02", (1/100 : ℚ), (122/10000 : ℚ)), ("t03", (1/100 : ℚ), (123/10000 : ℚ)), ("t04", (1/100 : ℚ), (124/10000 : ℚ)), ("t05", (1/100 : ℚ), (125/10000 : ℚ)), ("t06", (1/100 : ℚ), (126/10000 : ℚ)), ("t07", (1/100 : ℚ), (127/10000 : ℚ)), ("t08", (1/100 : ℚ), (128/10000 : ℚ)), ("t09", (1/100 : ℚ), (129/10000 : ℚ)), ("t10", (1/100 : ℚ), (130/10000 : ℚ)), ("t11", (1/100 : ℚ), (131/10000 : ℚ)), ("t12", (1/100 : ℚ), (132/10000 : ℚ)), ("t13", (1/100 : ℚ), (133/10000 : ℚ)), ("t14", (1/100 : ℚ), (134/10000 : ℚ)), ("t15", (1/100 : ℚ), (135/10000 : ℚ)), ("t16", (1/100 : ℚ), (136/10000 : ℚ))] := by
    rw [htake]
    norm_num [risingAll, c7cur, List.filterMap_cons, l01, l02, l03, l04, l05, l06, l07, l08, l09, l10, l11, l12, l13, l14, l15, l16]
  have hSort : stableSortBy risingGt
      ([("t01", (1/100 : ℚ), (121/10000 : ℚ)), ("t02", (1/100 : ℚ), (122/10000 : ℚ)), ("t03", (1/100 : ℚ), (123/10000 : ℚ)), ("t04", (1/100 : ℚ), (124/10000 : ℚ)), ("t05", (1/100 : ℚ), (125/10000 : ℚ)), ("t06", (1/100 : ℚ), (126/10000 : ℚ)), ("t07", (1/100 : ℚ), (127/10000 : ℚ)), ("t08", (1/100 : ℚ), (128/10000 : ℚ)), ("t09", (1/100 : ℚ), (129/10000 : ℚ)), ("t10", (1/100 : ℚ), (130/10000 : ℚ)), ("t11", (1/100 : ℚ), (131/10000 : ℚ)), ("t12", (1/100 : ℚ), (132/10000 : ℚ)), ("t13", (1/100 : ℚ), (133/10000 : ℚ)), ("t14", (1/100 : ℚ), (134/10000 : ℚ)), ("t15", (1/100 : ℚ), (135/10000 : ℚ)), ("t16", (1/100 : ℚ), (136/10000 : ℚ))] : List (String × ℚ × ℚ)) =
      [("t16", (1/100 : ℚ), (136/10000 : ℚ)), ("t15", (1/100 : ℚ), (135/10000 : ℚ)), ("t14", (1/100 : ℚ), (134/10000 : ℚ)), ("t13", (1/100 : ℚ), (133/10000 : ℚ)), ("t12", (1/100 : ℚ), (132/10000 : ℚ)), ("t11", (1/100 : ℚ), (131/10000 : ℚ)), ("t10", (1/100 : ℚ), (130/10000 : ℚ)), ("t09", (1/100 : ℚ), (129/10000 : ℚ)), ("t08", (1/100 : ℚ), (128/10000 : ℚ)), ("t07", (1/100 : ℚ), (127/10000 : ℚ)), ("t06", (1/100 : ℚ), (126/10000 : ℚ)), ("t05", (1/100 : ℚ), (125/10000 : ℚ)), ("t04", (1/100 : ℚ), (124/10000 : ℚ)), ("t03", (1/100 : ℚ), (123/10000 : ℚ)), ("t02", (1/100 : ℚ), (122/10000 : ℚ)), ("t01", (1/100 : ℚ), (121/10000 : ℚ))] := by
    norm_num [stableSortBy, insertAfterEq, risingGt]
  refine ⟨rfl, rfl, by norm_num, by norm_num, ?_⟩
  have hne : c7prevSnap.top_tfidf.isEmpty = false := rfl
  simp only [detect_new_terms, load_prev]
  rw [if_neg (by simp [hne])]
  simp only [hR, hSort]
  decide

/-- Witness for C7 (amended) at Scenario E of the spec: one term whose mean
score rose from 0.0100 to 0.0160 (a 60% increase) is collected and, the
rising list having a single element, appears in the report's rising
section. -/
theorem rising_detection_amended_witness :
    ("opioid", (1/100 : ℚ), (16/1000 : ℚ)) ∈
      risingAll (([("opioid", (16/1000 : ℚ))] : List (String × ℚ)).take 50)
        ({ timestamp := "2026-10-11T06:00:00",
           top_tfidf := [("opioid", (1/100 : ℚ))], gap_terms := [],
           rake_phrases := [] } : Snapshot).top_tfidf ∧
    ((risingAll (([("opioid", (16/1000 : ℚ))] : List (String × ℚ)).take 50)
        ({ timestamp := "2026-10-11T06:00:00",
           top_tfidf := [("opioid", (1/100 : ℚ))], gap_terms := [],
           rake_phrases := [] } : Snapshot).top_tfidf).length ≤ 15 →
      "opioid" ∈ (detect_new_terms [("opioid", (16/1000 : ℚ))] [] []
          (.valid { timestamp := "2026-10-11T06:00:00",
                    top_tfidf := [("opioid", (1/100 : ℚ))], gap_terms := [],
                    rake_phrases := [] }) "2026-10-12T06:00:00").rising.map
        (fun x => x.1)) :=
  rising_detection_amended
    { timestamp := "2026-10-11T06:00:00", top_tfidf := [("opioid", (1/100 : ℚ))],
      gap_terms := [], rake_phrases := [] }
    [("opioid", (16/1000 : ℚ))] [] [] "2026-10-12T06:00:00" "opioid"
    (16/1000 : ℚ) (1/100 : ℚ)
    (by simp) rfl (by norm_num) (by norm_num)

end Scraper
